import Mathlib

set_option autoImplicit false

/-!
A shallow embedding of `channeldb/migrations.go` (the schema-migration steps
of the channel database) together with proofs about the three migration
functions `migrateNodeAndEdgeUpdateIndex`, `migrateAddInvoiceWithChannelPoint`
and `migrateAddTypeToForwardEvent`.

The transactional key-value store (bolt) is modelled as a tree of
Collections: association lists from byte-string keys to entries, where an
entry is either a leaf byte value or a nested Collection.  A transaction is
the root Collection.  Bytes are naturals; the fixed-width encodings used by
the code reduce modulo 2 ^ 64 explicitly.  Go panics (out-of-range slicing)
and Go errors are both modelled as the error case of `Except`.
-/

/-- Raw byte strings, modelled as lists of naturals. -/
abbrev Bytes := List Nat

/-- Modelled from the spec: an entry of a Collection of the transactional
store (spec section 3) is either a leaf byte value or a nested Collection. -/
inductive Entry where
  | leaf (v : Bytes)
  | sub (b : List (Bytes × Entry))

/-- A Collection: an association list from keys to entries. -/
abbrev Bucket := List (Bytes × Entry)

/-- Modelled from the spec: bolt's ForEach hands the visitor the byte value
for leaf entries and nil (here `none`) for nested sub-Collections. -/
def entryValue : Entry → Option Bytes
  | .leaf v => some v
  | .sub _ => none

/-- The first entry stored under the given key, if any. -/
def lookupEntry : Bucket → Bytes → Option Entry
  | [], _ => none
  | (k', e) :: rest, k => if k' = k then some e else lookupEntry rest k

/-- Modelled from the spec: Collection.put overwrites the entry at the key in
place, or appends it when the key is absent. -/
def putEntry : Bucket → Bytes → Entry → Bucket
  | [], k, e => [(k, e)]
  | (k', e') :: rest, k, e =>
    if k' = k then (k, e) :: rest else (k', e') :: putEntry rest k e

/-- Modelled from the spec: `tx.Bucket(name)` returns the nested Collection
stored under the name, or nothing when the name is absent or holds a leaf. -/
def getBucket (b : Bucket) (name : Bytes) : Option Bucket :=
  match lookupEntry b name with
  | some (.sub c) => some c
  | _ => none

/-- The contents of the nested Collection under the name; empty when the name
is absent or holds a leaf. -/
def getSub (b : Bucket) (name : Bytes) : Bucket :=
  match lookupEntry b name with
  | some (.sub c) => c
  | _ => []

/-- The keys of a Collection, in storage order. -/
def bucketKeys (b : Bucket) : List Bytes := b.map Prod.fst

/-- The number of entries of the Collection carrying the given key. -/
def countKey (b : Bucket) (k : Bytes) : Nat :=
  (b.filter (fun p => decide (p.1 = k))).length

/-- Modelled from the spec: CreateBucketIfNotExists returns the existing
nested Collection at the name, errors when the name holds a leaf value, and
otherwise creates an empty nested Collection.  Returns the updated parent
together with the child's contents. -/
def createBucketIfNotExists (parent : Bucket) (name : Bytes) :
    Except String (Bucket × Bucket) :=
  match lookupEntry parent name with
  | some (.sub c) => .ok (parent, c)
  | some (.leaf _) => .error "incompatible value"
  | none => .ok (putEntry parent name (.sub []), [])

/-- Modelled from the spec: Collection.forEach visits the entries in storage
order and stops at the first visitor error.  The state threaded through is
the Collection the visitor writes into; the visited list is the key set as it
stood when the iteration began (the visitors only ever overwrite the value of
the key currently being visited or write into a different Collection, the
case the spec declares safe in section 4.2). -/
def foldE (f : Bucket → Bytes × Entry → Except String Bucket) :
    Bucket → List (Bytes × Entry) → Except String Bucket
  | s, [] => .ok s
  | s, x :: xs =>
    match f s x with
    | .error e => .error e
    | .ok s' => foldE f s' xs

/-- The w big-endian base-256 digits of a natural, most significant first. -/
def beBytes : Nat → Nat → Bytes
  | 0, _ => []
  | w + 1, n => n / 256 ^ w :: beBytes w (n % 256 ^ w)

/-- Modelled from the spec: `byteOrder.PutUint64` — the 8-byte big-endian
encoding of a 64-bit value.  The `byteOrder` constant is declared outside
src/; the spec fixes it to big-endian (section 3: "timestamp (8 bytes,
big-endian)"). -/
def putUint64 (n : Nat) : Bytes := beBytes 8 (n % 2 ^ 64)

/-- The value denoted by a big-endian base-256 digit string. -/
def beToNat (bs : Bytes) : Nat := bs.foldl (fun a b => a * 256 + b) 0

/-- Lexicographic order on byte strings (bolt's key order), as a Boolean. -/
def lexLe : Bytes → Bytes → Bool
  | [], _ => true
  | _ :: _, [] => false
  | a :: as, b :: bs => decide (a < b) || (decide (a = b) && lexLe as bs)

/-- Modelled from the spec: the name of the node Collection ("graph-node").
The name constants are declared outside src/; only their lengths and pairwise
distinctness matter to the migration code. -/
def nodeBucket : Bytes := [103, 114, 97, 112, 104, 45, 110, 111, 100, 101]

/-- Modelled from the spec: the name of the node-update-index Collection
("graph-node-update-index", 23 bytes). -/
def nodeUpdateIndexBucket : Bytes :=
  [103, 114, 97, 112, 104, 45, 110, 111, 100, 101, 45,
   117, 112, 100, 97, 116, 101, 45, 105, 110, 100, 101, 120]

/-- Modelled from the spec: the name of the edge Collection ("graph-edge"). -/
def edgeBucket : Bytes := [103, 114, 97, 112, 104, 45, 101, 100, 103, 101]

/-- Modelled from the spec: the name of the edge-update-index Collection
("edge-update-index", 17 bytes). -/
def edgeUpdateIndexBucket : Bytes :=
  [101, 100, 103, 101, 45, 117, 112, 100, 97, 116, 101, 45,
   105, 110, 100, 101, 120]

/-- Modelled from the spec: the name of the outgoing-payment Collection
("payments"). -/
def paymentBucket : Bytes := [112, 97, 121, 109, 101, 110, 116, 115]

/-- Modelled from the spec: the name of the invoice Collection
("invoices"). -/
def invoiceBucket : Bytes := [105, 110, 118, 111, 105, 99, 101, 115]

/-- Modelled from the spec: the name of the forwarding-event log Collection
("circuit-fwd-log"). -/
def forwardingLogBucket : Bytes :=
  [99, 105, 114, 99, 117, 105, 116, 45, 102, 119, 100, 45, 108, 111, 103]

/-- Modelled from the spec: the schema version introducing the update
indexes.  The version constants are declared outside src/; they only act as
distinct tags selecting a codec layout. -/
def nodeAndEdgeUpdateIndexVersion : Nat := 1

/-- Modelled from the spec: the schema version adding the channel point to
invoices. -/
def invoiceWithChannelPointVersion : Nat := 2

/-- Modelled from the spec: the schema version adding the classification
field to forwarding events. -/
def forwardEventWithType : Nat := 3

/-- Modelled from the spec: the forward-event classification value denoting a
successful forward — the default the migration assigns ("the only outcome
representable before this field existed", spec 4.5). -/
def SuccessForward : Nat := 0

/-- The fields of a channel edge policy record that the migration reads. -/
structure ChanEdgePolicy where
  channelID : Nat
  lastUpdate : Nat

/-- Modelled from the spec: `deserializeChanEdgePolicy` is declared outside
src/.  Per the spec's codec contract (sections 4.3 and 6) it decodes the full
edge-policy record from its bytes — the update time sits at no fixed offset —
and fails on malformed bytes.  The model reads a channel id and an update
time from the first 16 bytes and rejects shorter inputs; the node Collection
the caller passes is not consulted. -/
def deserializeChanEdgePolicy (v : Bytes) (_nodes : Bucket) :
    Except String ChanEdgePolicy :=
  if v.length < 16 then .error "unexpected EOF"
  else .ok { channelID := beToNat (v.take 8),
             lastUpdate := beToNat ((v.drop 8).take 8) }

/-- An outgoing payment record: its prior-version fields, and the channel
point added by `invoiceWithChannelPointVersion`. -/
structure OutgoingPayment where
  paymentFields : Bytes
  channelPoint : Bytes

/-- Modelled from the spec: `deserializeOutgoingPayment` is declared outside
src/.  Per the spec's codec contract (4.4, 6), decoding at the prior version
reads the record without the channel point, leaving the new field at its
empty default, and fails on malformed bytes; decoding at the new version also
reads the channel point.  The modelled layout is a length byte followed by
the payload (and, at the new version, a second length byte and the channel
point). -/
def deserializeOutgoingPayment (v : Bytes) (version : Nat) :
    Except String OutgoingPayment :=
  if version = invoiceWithChannelPointVersion then
    match v with
    | [] => .error "unexpected EOF"
    | n :: rest =>
      if rest.length < n then .error "unexpected EOF"
      else
        match rest.drop n with
        | [] => .error "unexpected EOF"
        | m :: rest2 =>
          if rest2.length = m then
            .ok { paymentFields := rest.take n, channelPoint := rest2 }
          else .error "invalid payment encoding"
  else
    match v with
    | [] => .error "unexpected EOF"
    | n :: rest =>
      if rest.length = n then .ok { paymentFields := rest, channelPoint := [] }
      else .error "invalid payment encoding"

/-- Modelled from the spec: `serializeOutgoingPayment` is declared outside
src/.  Encoding at the new version writes the prior fields and the channel
point; at the prior version only the fields.  The Go signature is fallible
(writer errors), the modelled encoder always succeeds. -/
def serializeOutgoingPayment (payment : OutgoingPayment) (version : Nat) :
    Except String Bytes :=
  if version = invoiceWithChannelPointVersion then
    .ok (payment.paymentFields.length :: payment.paymentFields ++
         payment.channelPoint.length :: payment.channelPoint)
  else .ok (payment.paymentFields.length :: payment.paymentFields)

/-- An invoice record: its prior-version fields, and the channel point added
by `invoiceWithChannelPointVersion`. -/
structure Invoice where
  invoiceFields : Bytes
  channelPoint : Bytes

/-- Modelled from the spec: `deserializeInvoice` is declared outside src/.
Same modelled layout and version behaviour as the outgoing-payment codec. -/
def deserializeInvoice (v : Bytes) (version : Nat) : Except String Invoice :=
  if version = invoiceWithChannelPointVersion then
    match v with
    | [] => .error "unexpected EOF"
    | n :: rest =>
      if rest.length < n then .error "unexpected EOF"
      else
        match rest.drop n with
        | [] => .error "unexpected EOF"
        | m :: rest2 =>
          if rest2.length = m then
            .ok { invoiceFields := rest.take n, channelPoint := rest2 }
          else .error "invalid invoice encoding"
  else
    match v with
    | [] => .error "unexpected EOF"
    | n :: rest =>
      if rest.length = n then .ok { invoiceFields := rest, channelPoint := [] }
      else .error "invalid invoice encoding"

/-- Modelled from the spec: `serializeInvoice` is declared outside src/. -/
def serializeInvoice (invoice : Invoice) (version : Nat) :
    Except String Bytes :=
  if version = invoiceWithChannelPointVersion then
    .ok (invoice.invoiceFields.length :: invoice.invoiceFields ++
         invoice.channelPoint.length :: invoice.channelPoint)
  else .ok (invoice.invoiceFields.length :: invoice.invoiceFields)

/-- A forwarding event record: its prior-version fields, and the
classification field added by `forwardEventWithType`. -/
structure ForwardingEvent where
  eventFields : Bytes
  typ : Nat

/-- Modelled from the spec: `decodeForwardingEvent` is declared outside src/.
The prior-version record is a fixed-width (40-byte) record without the
classification field; the new version carries the classification in one
trailing byte.  Malformed bytes — in particular the empty input produced by
reading a nil value — yield an error. -/
def decodeForwardingEvent (v : Bytes) (version : Nat) :
    Except String ForwardingEvent :=
  if version = forwardEventWithType then
    if v.length = 41 then .ok { eventFields := v.take 40, typ := v.getD 40 0 }
    else .error "unexpected EOF"
  else
    if v.length = 40 then .ok { eventFields := v, typ := 0 }
    else .error "unexpected EOF"

/-- Modelled from the spec: `encodeForwardingEvent` is declared outside
src/. -/
def encodeForwardingEvent (event : ForwardingEvent) (version : Nat) :
    Except String Bytes :=
  if version = forwardEventWithType then .ok (event.eventFields ++ [event.typ])
  else .ok event.eventFields

/-- The visitor `migrateNodeAndEdgeUpdateIndex` passes to `nodes.ForEach`
(migrations.go lines 35-54).  Entries whose key is not 33 bytes long are
skipped; otherwise the first 8 bytes of the value are read without decoding
the record — the Go slice expression `nodeInfo[:8]` panics when the value
holds fewer than 8 bytes, in particular when it is nil, and the panic is
modelled as an error — and the key (updateTime ++ nodePub) is written into
the node update index with an empty value. -/
def nodeMigVisitor (nodeUpdateIndex : Bucket) (nodePub : Bytes)
    (nodeInfo : Option Bytes) : Except String Bucket :=
  if nodePub.length ≠ 33 then .ok nodeUpdateIndex
  else
    let info := nodeInfo.getD []
    if info.length < 8 then .error "runtime error: slice bounds out of range"
    else .ok (putEntry nodeUpdateIndex (info.take 8 ++ nodePub) (.leaf []))

/-- The visitor `migrateNodeAndEdgeUpdateIndex` passes to `edges.ForEach`
(migrations.go lines 76-106).  Entries whose key is not 41 bytes long are
skipped; otherwise the channel id is the last 8 bytes of the key, the policy
is decoded (a nil value reads as empty bytes), and on success the key
(updateTime ++ chanID) is written into the edge update index with an empty
value; a decode error is returned as is. -/
def edgeMigVisitor (nodes : Bucket) (edgeUpdateIndex : Bucket)
    (edgeKey : Bytes) (edgePolicyBytes : Option Bytes) :
    Except String Bucket :=
  if edgeKey.length ≠ 41 then .ok edgeUpdateIndex
  else
    match deserializeChanEdgePolicy (edgePolicyBytes.getD []) nodes with
    | .error e => .error e
    | .ok edgePolicy =>
      .ok (putEntry edgeUpdateIndex
            (putUint64 edgePolicy.lastUpdate ++ edgeKey.drop 33) (.leaf []))

/-- The visitor `migrateAddInvoiceWithChannelPoint` passes to the payment
Collection's ForEach (migrations.go lines 126-149).  Nil values (nested
sub-Collections) are skipped; leaf values are decoded at the prior version,
re-encoded at the new version, and written back under the same key. -/
def paymentMigVisitor (paymentsBucket : Bucket) (paymentKey : Bytes)
    (paymentData : Option Bytes) : Except String Bucket :=
  match paymentData with
  | none => .ok paymentsBucket
  | some v =>
    match deserializeOutgoingPayment v nodeAndEdgeUpdateIndexVersion with
    | .error e => .error e
    | .ok payment =>
      match serializeOutgoingPayment payment invoiceWithChannelPointVersion with
      | .error e => .error e
      | .ok b => .ok (putEntry paymentsBucket paymentKey (.leaf b))

/-- The visitor `migrateAddInvoiceWithChannelPoint` passes to the invoice
Collection's ForEach (migrations.go lines 163-181). -/
def invoiceMigVisitor (invoicesBucket : Bucket) (invoiceKey : Bytes)
    (invoiceData : Option Bytes) : Except String Bucket :=
  match invoiceData with
  | none => .ok invoicesBucket
  | some v =>
    match deserializeInvoice v nodeAndEdgeUpdateIndexVersion with
    | .error e => .error e
    | .ok invoice =>
      match serializeInvoice invoice invoiceWithChannelPointVersion with
      | .error e => .error e
      | .ok b => .ok (putEntry invoicesBucket invoiceKey (.leaf b))

/-- The visitor `migrateAddTypeToForwardEvent` passes to the forwarding log's
ForEach (migrations.go lines 197-220).  Every entry is decoded at the prior
version (a nil value reads as empty bytes), its classification is set to
`SuccessForward`, and the record is re-encoded at the new version and written
back under the same key. -/
def forwardEventMigVisitor (logBucket : Bucket) (logTime : Bytes)
    (logData : Option Bytes) : Except String Bucket :=
  match decodeForwardingEvent (logData.getD []) (forwardEventWithType - 1) with
  | .error e => .error e
  | .ok event =>
    match encodeForwardingEvent { event with typ := SuccessForward }
        forwardEventWithType with
    | .error e => .error e
    | .ok b => .ok (putEntry logBucket logTime (.leaf b))

/-- The node visitor as a step function on (key, entry) pairs. -/
def nodeStep (idx : Bucket) (p : Bytes × Entry) : Except String Bucket :=
  nodeMigVisitor idx p.1 (entryValue p.2)

/-- The edge visitor as a step function on (key, entry) pairs. -/
def edgeStep (nodes : Bucket) (idx : Bucket) (p : Bytes × Entry) :
    Except String Bucket :=
  edgeMigVisitor nodes idx p.1 (entryValue p.2)

/-- The payment visitor as a step function on (key, entry) pairs. -/
def payStep (s : Bucket) (p : Bytes × Entry) : Except String Bucket :=
  paymentMigVisitor s p.1 (entryValue p.2)

/-- The invoice visitor as a step function on (key, entry) pairs. -/
def invStep (s : Bucket) (p : Bytes × Entry) : Except String Bucket :=
  invoiceMigVisitor s p.1 (entryValue p.2)

/-- The forwarding-event visitor as a step function on (key, entry) pairs. -/
def fwdStep (s : Bucket) (p : Bytes × Entry) : Except String Bucket :=
  forwardEventMigVisitor s p.1 (entryValue p.2)

/-- The node half of `migrateNodeAndEdgeUpdateIndex` (migrations.go lines
19-57): create the node Collection and the node update index if absent, run
the node visitor over the node Collection, and write the results back. -/
def migrateNodePhase (tx : Bucket) : Except String Bucket :=
  match createBucketIfNotExists tx nodeBucket with
  | .error e => .error ("unable to create node bucket: " ++ e)
  | .ok (tx1, nodes0) =>
    match createBucketIfNotExists nodes0 nodeUpdateIndexBucket with
    | .error e => .error ("unable to create node update index: " ++ e)
    | .ok (nodes1, nui0) =>
      match foldE nodeStep nui0 nodes1 with
      | .error e => .error ("unable to update node indexes: " ++ e)
      | .ok nuiF =>
        .ok (putEntry tx1 nodeBucket
              (.sub (putEntry nodes1 nodeUpdateIndexBucket (.sub nuiF))))

/-- The edge half of `migrateNodeAndEdgeUpdateIndex` (migrations.go lines
63-109): create the edge Collection and the edge update index if absent, run
the edge visitor — which decodes policies against the node Collection of the
transaction — over the edge Collection, and write the results back. -/
def migrateEdgePhase (tx2 : Bucket) : Except String Bucket :=
  match createBucketIfNotExists tx2 edgeBucket with
  | .error e => .error ("unable to create edge bucket: " ++ e)
  | .ok (tx3, edges0) =>
    match createBucketIfNotExists edges0 edgeUpdateIndexBucket with
    | .error e => .error ("unable to create edge update index: " ++ e)
    | .ok (edges1, eui0) =>
      match foldE (edgeStep (getSub tx2 nodeBucket)) eui0 edges1 with
      | .error e => .error ("unable to update edge indexes: " ++ e)
      | .ok euiF =>
        .ok (putEntry tx3 edgeBucket
              (.sub (putEntry edges1 edgeUpdateIndexBucket (.sub euiF))))

/-- Migration from version 0 to version 1 (migrations.go lines 15-114):
populate the node and edge update indexes. -/
def migrateNodeAndEdgeUpdateIndex (tx : Bucket) : Except String Bucket :=
  match migrateNodePhase tx with
  | .error e => .error e
  | .ok tx2 => migrateEdgePhase tx2

/-- The payment half of `migrateAddInvoiceWithChannelPoint` (migrations.go
lines 124-153): when the payment Collection exists, re-encode its leaf
entries in place; absent means nothing to do. -/
def migratePaymentsPart (tx : Bucket) : Except String Bucket :=
  match getBucket tx paymentBucket with
  | none => .ok tx
  | some paymentsBucket =>
    match foldE payStep paymentsBucket paymentsBucket with
    | .error e => .error e
    | .ok pbF => .ok (putEntry tx paymentBucket (.sub pbF))

/-- The invoice half of `migrateAddInvoiceWithChannelPoint` (migrations.go
lines 158-185). -/
def migrateInvoicesPart (tx : Bucket) : Except String Bucket :=
  match getBucket tx invoiceBucket with
  | none => .ok tx
  | some invoicesBucket =>
    match foldE invStep invoicesBucket invoicesBucket with
    | .error e => .error e
    | .ok ibF => .ok (putEntry tx invoiceBucket (.sub ibF))

/-- Migration adding the channel point field to payments and invoices
(migrations.go lines 120-190). -/
def migrateAddInvoiceWithChannelPoint (tx : Bucket) : Except String Bucket :=
  match migratePaymentsPart tx with
  | .error e => .error e
  | .ok tx1 => migrateInvoicesPart tx1

/-- Migration adding the classification field to forwarding events
(migrations.go lines 194-224): when the forwarding log exists, every entry
is decoded, classified as successful, re-encoded and written back; an absent
log Collection is a successful no-op. -/
def migrateAddTypeToForwardEvent (tx : Bucket) : Except String Bucket :=
  match getBucket tx forwardingLogBucket with
  | none => .ok tx
  | some logBucket =>
    match foldE fwdStep logBucket logBucket with
    | .error e => .error e
    | .ok logF => .ok (putEntry tx forwardingLogBucket (.sub logF))

/-! ### Basic Collection lemmas -/

theorem lookupEntry_putEntry_self (b : Bucket) (k : Bytes) (e : Entry) :
    lookupEntry (putEntry b k e) k = some e := by
  induction b with
  | nil => simp [putEntry, lookupEntry]
  | cons p rest ih =>
    rcases p with ⟨k', e'⟩
    by_cases h : k' = k
    · simp [putEntry, h, lookupEntry]
    · simp [putEntry, h, lookupEntry, ih]

theorem bucketKeys_nil : bucketKeys [] = [] := rfl

theorem bucketKeys_cons (k : Bytes) (e : Entry) (rest : Bucket) :
    bucketKeys ((k, e) :: rest) = k :: bucketKeys rest := rfl

theorem lookupEntry_putEntry_ne (b : Bucket) (k k' : Bytes) (e : Entry)
    (h : k' ≠ k) : lookupEntry (putEntry b k' e) k = lookupEntry b k := by
  induction b with
  | nil => simp [putEntry, lookupEntry, h]
  | cons p rest ih =>
    rcases p with ⟨k0, e0⟩
    by_cases h0 : k0 = k'
    · subst h0
      simp [putEntry, lookupEntry, h]
    · by_cases h1 : k0 = k
      · subst h1
        simp [putEntry, h0, lookupEntry]
      · simp [putEntry, h0, lookupEntry, h1, ih]

theorem mem_putEntry_of_ne (b : Bucket) (k : Bytes) (e : Entry) (k2 : Bytes)
    (e2 : Entry) (hmem : (k, e) ∈ b) (hne : k ≠ k2) :
    (k, e) ∈ putEntry b k2 e2 := by
  induction b with
  | nil => cases hmem
  | cons p rest ih =>
    rcases p with ⟨k', e'⟩
    rcases List.mem_cons.mp hmem with heq | htl
    · have hk : k' = k := (congrArg Prod.fst heq).symm
      have hne' : ¬k' = k2 := by rw [hk]; exact hne
      have hput : putEntry ((k', e') :: rest) k2 e2 =
          (k', e') :: putEntry rest k2 e2 := by simp [putEntry, hne']
      rw [hput]
      exact List.mem_cons.mpr (Or.inl heq)
    · by_cases h0 : k' = k2
      · have hput : putEntry ((k', e') :: rest) k2 e2 = (k2, e2) :: rest := by
          simp [putEntry, h0]
        rw [hput]
        exact List.mem_cons_of_mem _ htl
      · have hput : putEntry ((k', e') :: rest) k2 e2 =
            (k', e') :: putEntry rest k2 e2 := by simp [putEntry, h0]
        rw [hput]
        exact List.mem_cons_of_mem _ (ih htl)

theorem mem_bucketKeys_of_mem (b : Bucket) (k : Bytes) (e : Entry)
    (h : (k, e) ∈ b) : k ∈ bucketKeys b :=
  List.mem_map_of_mem Prod.fst h

theorem mem_bucketKeys_putEntry (b : Bucket) (k : Bytes) (e : Entry)
    (m : Bytes) : m ∈ bucketKeys (putEntry b k e) → m ∈ bucketKeys b ∨ m = k := by
  induction b with
  | nil =>
    intro h
    right
    simpa [putEntry, bucketKeys] using h
  | cons p rest ih =>
    rcases p with ⟨k', e'⟩
    intro h
    by_cases h0 : k' = k
    · subst h0
      have hput : putEntry ((k', e') :: rest) k' e = (k', e) :: rest := by
        simp [putEntry]
      rw [hput, bucketKeys_cons] at h
      rcases List.mem_cons.mp h with heq | htl
      · exact Or.inr heq
      · exact Or.inl (by rw [bucketKeys_cons]; exact List.mem_cons_of_mem _ htl)
    · have hput : putEntry ((k', e') :: rest) k e =
          (k', e') :: putEntry rest k e := by simp [putEntry, h0]
      rw [hput, bucketKeys_cons] at h
      rcases List.mem_cons.mp h with heq | htl
      · exact Or.inl (by rw [bucketKeys_cons]; exact List.mem_cons.mpr (Or.inl heq))
      · rcases ih htl with h' | h'
        · exact Or.inl (by rw [bucketKeys_cons]; exact List.mem_cons_of_mem _ h')
        · exact Or.inr h'

theorem nodup_putEntry (b : Bucket) (k : Bytes) (e : Entry)
    (h : (bucketKeys b).Nodup) : (bucketKeys (putEntry b k e)).Nodup := by
  induction b with
  | nil => simp [putEntry, bucketKeys]
  | cons p rest ih =>
    rcases p with ⟨k', e'⟩
    rw [bucketKeys_cons] at h
    have h1 := (List.nodup_cons.mp h).1
    have h2 := (List.nodup_cons.mp h).2
    by_cases h0 : k' = k
    · have hput : putEntry ((k', e') :: rest) k e = (k, e) :: rest := by
        simp [putEntry, h0]
      rw [hput, bucketKeys_cons]
      exact List.nodup_cons.mpr ⟨h0 ▸ h1, h2⟩
    · have hput : putEntry ((k', e') :: rest) k e =
          (k', e') :: putEntry rest k e := by simp [putEntry, h0]
      rw [hput, bucketKeys_cons]
      refine List.nodup_cons.mpr ⟨?_, ih h2⟩
      intro hmem
      rcases mem_bucketKeys_putEntry rest k e k' hmem with h' | h'
      · exact h1 h'
      · exact h0 h'

theorem lookupEntry_eq_of_mem_nodup (b : Bucket) (k : Bytes) (e : Entry)
    (hnd : (bucketKeys b).Nodup) (hmem : (k, e) ∈ b) :
    lookupEntry b k = some e := by
  induction b with
  | nil => cases hmem
  | cons p rest ih =>
    rcases p with ⟨k', e'⟩
    rw [bucketKeys_cons] at hnd
    have hnd1 := (List.nodup_cons.mp hnd).1
    have hnd2 := (List.nodup_cons.mp hnd).2
    rcases List.mem_cons.mp hmem with heq | htl
    · have h1 : k = k' := congrArg Prod.fst heq
      have h2 : e = e' := congrArg Prod.snd heq
      simp [lookupEntry, ← h1, ← h2]
    · have hne : ¬k' = k := by
        intro hk
        exact hnd1 (by rw [hk]; exact mem_bucketKeys_of_mem rest k e htl)
      simp [lookupEntry, hne, ih hnd2 htl]

theorem countKey_nil (k : Bytes) : countKey [] k = 0 := rfl

theorem countKey_cons (k' : Bytes) (e' : Entry) (rest : Bucket) (k : Bytes) :
    countKey ((k', e') :: rest) k =
      countKey rest k + (if k' = k then 1 else 0) := by
  by_cases h : k' = k <;> simp [countKey, List.filter_cons, h]

theorem countKey_eq_zero_of_not_mem (b : Bucket) (k : Bytes)
    (h : k ∉ bucketKeys b) : countKey b k = 0 := by
  induction b with
  | nil => rfl
  | cons p rest ih =>
    rcases p with ⟨k', e'⟩
    rw [bucketKeys_cons] at h
    have h1 : ¬k' = k := fun hk => h (by rw [hk]; exact List.mem_cons_self k (bucketKeys rest))
    have h2 : k ∉ bucketKeys rest := fun hk => h (List.mem_cons_of_mem _ hk)
    rw [countKey_cons, ih h2]
    simp [h1]

theorem countKey_eq_one_of_nodup (b : Bucket) (k : Bytes)
    (hnd : (bucketKeys b).Nodup) (hmem : k ∈ bucketKeys b) :
    countKey b k = 1 := by
  induction b with
  | nil => cases hmem
  | cons p rest ih =>
    rcases p with ⟨k', e'⟩
    rw [bucketKeys_cons] at hnd hmem
    have hnd1 := (List.nodup_cons.mp hnd).1
    have hnd2 := (List.nodup_cons.mp hnd).2
    by_cases h : k' = k
    · subst h
      rw [countKey_cons, countKey_eq_zero_of_not_mem rest k' hnd1]
      simp
    · rcases List.mem_cons.mp hmem with heq | htl
      · exact absurd heq.symm h
      · rw [countKey_cons, ih hnd2 htl]
        simp [h]

theorem nodup_key_not_mem_right (l1 l2 : Bucket) (k : Bytes) (e : Entry)
    (h : (bucketKeys (l1 ++ (k, e) :: l2)).Nodup) : k ∉ bucketKeys l2 := by
  simp only [bucketKeys, List.map_append, List.map_cons] at h
  have h2 := h.of_append_right
  exact (List.nodup_cons.mp h2).1

theorem entry_eq_of_mem_nodup (b : Bucket) (k : Bytes) (e e' : Entry)
    (hnd : (bucketKeys b).Nodup) (h1 : (k, e) ∈ b) (h2 : (k, e') ∈ b) :
    e = e' := by
  have h3 := (lookupEntry_eq_of_mem_nodup b k e hnd h1).symm.trans
    (lookupEntry_eq_of_mem_nodup b k e' hnd h2)
  exact Option.some_injective _ h3

theorem createBucketIfNotExists_ok (b : Bucket) (name : Bytes)
    (b' c : Bucket) (h : createBucketIfNotExists b name = .ok (b', c)) :
    c = getSub b name ∧ (b' = b ∨ b' = putEntry b name (.sub [])) := by
  unfold createBucketIfNotExists at h
  cases hl : lookupEntry b name with
  | none =>
    rw [hl] at h
    simp at h
    exact ⟨by simp [getSub, hl, h.2.symm], Or.inr h.1.symm⟩
  | some e =>
    cases e with
    | leaf v => rw [hl] at h; simp at h
    | sub c0 =>
      rw [hl] at h
      simp at h
      exact ⟨by simp [getSub, hl, h.2.symm], Or.inl h.1.symm⟩

theorem createBucketIfNotExists_lookup_ne (b : Bucket) (name : Bytes)
    (b' c : Bucket) (m : Bytes)
    (h : createBucketIfNotExists b name = .ok (b', c)) (hne : name ≠ m) :
    lookupEntry b' m = lookupEntry b m := by
  rcases (createBucketIfNotExists_ok b name b' c h).2 with h' | h'
  · rw [h']
  · rw [h', lookupEntry_putEntry_ne _ _ _ _ hne]

theorem createBucketIfNotExists_mem (b : Bucket) (name : Bytes)
    (b' c : Bucket) (k : Bytes) (e : Entry)
    (h : createBucketIfNotExists b name = .ok (b', c))
    (hmem : (k, e) ∈ b) (hne : k ≠ name) : (k, e) ∈ b' := by
  rcases (createBucketIfNotExists_ok b name b' c h).2 with h' | h'
  · rw [h']; exact hmem
  · rw [h']; exact mem_putEntry_of_ne b k e name (.sub []) hmem hne

/-! ### ForEach lemmas -/

theorem foldE_append (f : Bucket → Bytes × Entry → Except String Bucket)
    (s : Bucket) (l1 l2 : List (Bytes × Entry)) :
    foldE f s (l1 ++ l2) = match foldE f s l1 with
      | .error e => .error e
      | .ok s1 => foldE f s1 l2 := by
  induction l1 generalizing s with
  | nil => simp [foldE]
  | cons x xs ih =>
    simp only [List.cons_append, foldE]
    cases f s x with
    | error e => simp
    | ok s1 => simp [ih]

theorem foldE_ok_mem (f : Bucket → Bytes × Entry → Except String Bucket)
    (s s' : Bucket) (l : List (Bytes × Entry)) (x : Bytes × Entry)
    (h : foldE f s l = .ok s') (hx : x ∈ l) : ∃ t t', f t x = .ok t' := by
  induction l generalizing s with
  | nil => cases hx
  | cons y ys ih =>
    unfold foldE at h
    cases hf : f s y with
    | error e => rw [hf] at h; cases h
    | ok s1 =>
      rw [hf] at h
      rcases List.mem_cons.mp hx with heq | htl
      · exact ⟨s, s1, heq ▸ hf⟩
      · exact ih s1 h htl

theorem foldE_inv (f : Bucket → Bytes × Entry → Except String Bucket)
    (P : Bucket → Prop) (s s' : Bucket) (l : List (Bytes × Entry))
    (hP : P s)
    (hstep : ∀ t x t', x ∈ l → P t → f t x = .ok t' → P t')
    (h : foldE f s l = .ok s') : P s' := by
  induction l generalizing s with
  | nil =>
    unfold foldE at h
    cases h
    exact hP
  | cons y ys ih =>
    unfold foldE at h
    cases hf : f s y with
    | error e => rw [hf] at h; cases h
    | ok s1 =>
      rw [hf] at h
      exact ih s1 (hstep s y s1 (List.mem_cons_self y ys) hP hf)
        (fun t x t' hx => hstep t x t' (List.mem_cons_of_mem y hx)) h

/-! ### Visitor shape: each visitor reads only the visited entry and either
skips, fails, or performs one put, all independently of the accumulated
state. -/

/-- A step that evaluates a state-independent action on the visited entry:
skip, fail, or put one key-entry pair. -/
def stepOf (g : Bytes × Entry → Except String (Option (Bytes × Entry)))
    (s : Bucket) (x : Bytes × Entry) : Except String Bucket :=
  match g x with
  | .error e => .error e
  | .ok none => .ok s
  | .ok (some p) => .ok (putEntry s p.1 p.2)

/-- The action of the node visitor on a visited entry. -/
def gNode (x : Bytes × Entry) : Except String (Option (Bytes × Entry)) :=
  if x.1.length ≠ 33 then .ok none
  else if ((entryValue x.2).getD []).length < 8 then
    .error "runtime error: slice bounds out of range"
  else .ok (some (((entryValue x.2).getD []).take 8 ++ x.1, .leaf []))

/-- The action of the edge visitor on a visited entry. -/
def gEdge (nodes : Bucket) (x : Bytes × Entry) :
    Except String (Option (Bytes × Entry)) :=
  if x.1.length ≠ 41 then .ok none
  else
    match deserializeChanEdgePolicy ((entryValue x.2).getD []) nodes with
    | .error e => .error e
    | .ok p => .ok (some (putUint64 p.lastUpdate ++ x.1.drop 33, .leaf []))

/-- The action of the payment visitor on a visited entry. -/
def gPay (x : Bytes × Entry) : Except String (Option (Bytes × Entry)) :=
  match entryValue x.2 with
  | none => .ok none
  | some v =>
    match deserializeOutgoingPayment v nodeAndEdgeUpdateIndexVersion with
    | .error e => .error e
    | .ok payment =>
      match serializeOutgoingPayment payment invoiceWithChannelPointVersion with
      | .error e => .error e
      | .ok b => .ok (some (x.1, .leaf b))

/-- The action of the invoice visitor on a visited entry. -/
def gInv (x : Bytes × Entry) : Except String (Option (Bytes × Entry)) :=
  match entryValue x.2 with
  | none => .ok none
  | some v =>
    match deserializeInvoice v nodeAndEdgeUpdateIndexVersion with
    | .error e => .error e
    | .ok invoice =>
      match serializeInvoice invoice invoiceWithChannelPointVersion with
      | .error e => .error e
      | .ok b => .ok (some (x.1, .leaf b))

/-- The action of the forwarding-event visitor on a visited entry. -/
def gFwd (x : Bytes × Entry) : Except String (Option (Bytes × Entry)) :=
  match decodeForwardingEvent ((entryValue x.2).getD [])
      (forwardEventWithType - 1) with
  | .error e => .error e
  | .ok event =>
    match encodeForwardingEvent { event with typ := SuccessForward }
        forwardEventWithType with
    | .error e => .error e
    | .ok b => .ok (some (x.1, .leaf b))

theorem nodeStep_shape (s : Bucket) (x : Bytes × Entry) :
    nodeStep s x = stepOf gNode s x := by
  rcases x with ⟨k, e⟩
  by_cases h1 : k.length ≠ 33
  · simp [nodeStep, nodeMigVisitor, stepOf, gNode, h1]
  · by_cases h2 : ((entryValue e).getD []).length < 8
    · simp [nodeStep, nodeMigVisitor, stepOf, gNode, h1, h2]
    · simp [nodeStep, nodeMigVisitor, stepOf, gNode, h1, h2]

theorem edgeStep_shape (nodes : Bucket) (s : Bucket) (x : Bytes × Entry) :
    edgeStep nodes s x = stepOf (gEdge nodes) s x := by
  rcases x with ⟨k, e⟩
  by_cases h1 : k.length ≠ 41
  · simp [edgeStep, edgeMigVisitor, stepOf, gEdge, h1]
  · cases hd : deserializeChanEdgePolicy ((entryValue e).getD []) nodes with
    | error e0 => simp [edgeStep, edgeMigVisitor, stepOf, gEdge, h1, hd]
    | ok p => simp [edgeStep, edgeMigVisitor, stepOf, gEdge, h1, hd]

theorem payStep_shape (s : Bucket) (x : Bytes × Entry) :
    payStep s x = stepOf gPay s x := by
  rcases x with ⟨k, e⟩
  cases he : entryValue e with
  | none => simp [payStep, paymentMigVisitor, stepOf, gPay, he]
  | some v =>
    cases hd : deserializeOutgoingPayment v nodeAndEdgeUpdateIndexVersion with
    | error e0 => simp [payStep, paymentMigVisitor, stepOf, gPay, he, hd]
    | ok payment =>
      cases hs : serializeOutgoingPayment payment invoiceWithChannelPointVersion with
      | error e0 => simp [payStep, paymentMigVisitor, stepOf, gPay, he, hd, hs]
      | ok b => simp [payStep, paymentMigVisitor, stepOf, gPay, he, hd, hs]

theorem invStep_shape (s : Bucket) (x : Bytes × Entry) :
    invStep s x = stepOf gInv s x := by
  rcases x with ⟨k, e⟩
  cases he : entryValue e with
  | none => simp [invStep, invoiceMigVisitor, stepOf, gInv, he]
  | some v =>
    cases hd : deserializeInvoice v nodeAndEdgeUpdateIndexVersion with
    | error e0 => simp [invStep, invoiceMigVisitor, stepOf, gInv, he, hd]
    | ok invoice =>
      cases hs : serializeInvoice invoice invoiceWithChannelPointVersion with
      | error e0 => simp [invStep, invoiceMigVisitor, stepOf, gInv, he, hd, hs]
      | ok b => simp [invStep, invoiceMigVisitor, stepOf, gInv, he, hd, hs]

theorem fwdStep_shape (s : Bucket) (x : Bytes × Entry) :
    fwdStep s x = stepOf gFwd s x := by
  rcases x with ⟨k, e⟩
  cases hd : decodeForwardingEvent ((entryValue e).getD [])
      (forwardEventWithType - 1) with
  | error e0 => simp [fwdStep, forwardEventMigVisitor, stepOf, gFwd, hd]
  | ok event =>
    cases hs : encodeForwardingEvent { event with typ := SuccessForward }
        forwardEventWithType with
    | error e0 => simp [fwdStep, forwardEventMigVisitor, stepOf, gFwd, hd, hs]
    | ok b => simp [fwdStep, forwardEventMigVisitor, stepOf, gFwd, hd, hs]

/-! ### Generic fold lemmas over shaped visitors -/

theorem stepOf_ok_g (f : Bucket → Bytes × Entry → Except String Bucket)
    (g : Bytes × Entry → Except String (Option (Bytes × Entry)))
    (hshape : ∀ s x, f s x = stepOf g s x)
    (t : Bucket) (x : Bytes × Entry) (t' : Bucket)
    (h : f t x = .ok t') : ∃ r, g x = .ok r := by
  rw [hshape] at h
  unfold stepOf at h
  cases hg : g x with
  | error e => rw [hg] at h; cases h
  | ok r => exact ⟨r, rfl⟩

theorem foldE_ok_g_ok (f : Bucket → Bytes × Entry → Except String Bucket)
    (g : Bytes × Entry → Except String (Option (Bytes × Entry)))
    (hshape : ∀ s x, f s x = stepOf g s x)
    (s s' : Bucket) (l : List (Bytes × Entry)) (x : Bytes × Entry)
    (h : foldE f s l = .ok s') (hx : x ∈ l) : ∃ r, g x = .ok r := by
  obtain ⟨t, t', ht⟩ := foldE_ok_mem f s s' l x h hx
  exact stepOf_ok_g f g hshape t x t' ht

theorem foldE_error_tail_indep
    (f : Bucket → Bytes × Entry → Except String Bucket)
    (g : Bytes × Entry → Except String (Option (Bytes × Entry)))
    (hshape : ∀ s x, f s x = stepOf g s x)
    (x : Bytes × Entry) (hx : ∀ r, g x ≠ .ok r)
    (l1 : List (Bytes × Entry)) :
    ∃ e, ∀ s l2, foldE f s (l1 ++ x :: l2) = .error e := by
  induction l1 with
  | nil =>
    cases hg : g x with
    | error ex =>
      refine ⟨ex, fun s l2 => ?_⟩
      have hf : f s x = .error ex := by rw [hshape]; unfold stepOf; rw [hg]
      simp [foldE, hf]
    | ok r => exact absurd hg (hx r)
  | cons y ys ih =>
    cases hg : g y with
    | error ey =>
      refine ⟨ey, fun s l2 => ?_⟩
      have hf : f s y = .error ey := by rw [hshape]; unfold stepOf; rw [hg]
      simp [foldE, hf]
    | ok r =>
      obtain ⟨e, he⟩ := ih
      refine ⟨e, fun s l2 => ?_⟩
      have hf : ∃ s1, f s y = .ok s1 := by
        rw [hshape]
        unfold stepOf
        rw [hg]
        cases r with
        | none => exact ⟨s, rfl⟩
        | some p => exact ⟨putEntry s p.1 p.2, rfl⟩
      obtain ⟨s1, hs1⟩ := hf
      simp only [List.cons_append, foldE, hs1]
      exact he s1 l2

theorem foldE_lookup_unwritten
    (f : Bucket → Bytes × Entry → Except String Bucket)
    (g : Bytes × Entry → Except String (Option (Bytes × Entry)))
    (hshape : ∀ s x, f s x = stepOf g s x)
    (s s' : Bucket) (l : List (Bytes × Entry)) (k : Bytes)
    (hw : ∀ x ∈ l, ∀ p, g x = .ok (some p) → p.1 ≠ k)
    (h : foldE f s l = .ok s') :
    lookupEntry s' k = lookupEntry s k := by
  refine foldE_inv f (fun t => lookupEntry t k = lookupEntry s k) s s' l rfl
    (fun t x t' hx hP hf => ?_) h
  rw [hshape] at hf
  unfold stepOf at hf
  cases hg : g x with
  | error e => rw [hg] at hf; cases hf
  | ok r =>
    rw [hg] at hf
    cases r with
    | none =>
      cases hf
      exact hP
    | some p =>
      cases hf
      rw [lookupEntry_putEntry_ne t k p.1 p.2 (hw x hx p hg)]
      exact hP

theorem foldE_lookup_written
    (f : Bucket → Bytes × Entry → Except String Bucket)
    (g : Bytes × Entry → Except String (Option (Bytes × Entry)))
    (hshape : ∀ s x, f s x = stepOf g s x)
    (s s' : Bucket) (l1 l2 : List (Bytes × Entry)) (x : Bytes × Entry)
    (k2 : Bytes) (ent : Entry)
    (hgx : g x = .ok (some (k2, ent)))
    (hl2 : ∀ y ∈ l2, ∀ p, g y = .ok (some p) → p.1 ≠ k2 ∨ p.2 = ent)
    (h : foldE f s (l1 ++ x :: l2) = .ok s') :
    lookupEntry s' k2 = some ent := by
  rw [foldE_append] at h
  cases h1 : foldE f s l1 with
  | error e => rw [h1] at h; cases h
  | ok s1 =>
    rw [h1] at h
    unfold foldE at h
    have hfx : f s1 x = .ok (putEntry s1 k2 ent) := by
      rw [hshape]
      unfold stepOf
      rw [hgx]
    rw [hfx] at h
    refine foldE_inv f (fun t => lookupEntry t k2 = some ent) _ s' l2
      (lookupEntry_putEntry_self s1 k2 ent) (fun t y t' hy hP hf => ?_) h
    rw [hshape] at hf
    unfold stepOf at hf
    cases hg : g y with
    | error e => rw [hg] at hf; cases hf
    | ok r =>
      rw [hg] at hf
      cases r with
      | none =>
        cases hf
        exact hP
      | some p =>
        cases hf
        rcases hl2 y hy p hg with hne | hent
        · rw [lookupEntry_putEntry_ne t k2 p.1 p.2 hne]
          exact hP
        · by_cases hk : p.1 = k2
          · rw [← hk, ← hent]
            exact lookupEntry_putEntry_self t p.1 p.2
          · rw [lookupEntry_putEntry_ne t k2 p.1 p.2 hk]
            exact hP

theorem foldE_nodup (f : Bucket → Bytes × Entry → Except String Bucket)
    (g : Bytes × Entry → Except String (Option (Bytes × Entry)))
    (hshape : ∀ s x, f s x = stepOf g s x)
    (s s' : Bucket) (l : List (Bytes × Entry))
    (hnd : (bucketKeys s).Nodup)
    (h : foldE f s l = .ok s') : (bucketKeys s').Nodup := by
  refine foldE_inv f (fun t => (bucketKeys t).Nodup) s s' l hnd
    (fun t x t' hx hP hf => ?_) h
  rw [hshape] at hf
  unfold stepOf at hf
  cases hg : g x with
  | error e => rw [hg] at hf; cases hf
  | ok r =>
    rw [hg] at hf
    cases r with
    | none =>
      cases hf
      exact hP
    | some p =>
      cases hf
      exact nodup_putEntry t p.1 p.2 hP

/-! ### Characterizations of the visitor actions -/

theorem ne_of_length_ne (a b : Bytes) (h : a.length ≠ b.length) : a ≠ b :=
  fun hab => h (by rw [hab])

theorem deserializeChanEdgePolicy_nodes_irrelevant (v : Bytes)
    (ns1 ns2 : Bucket) :
    deserializeChanEdgePolicy v ns1 = deserializeChanEdgePolicy v ns2 := rfl

theorem gNode_leaf (k v : Bytes) (hk : k.length = 33) (hv : 8 ≤ v.length) :
    gNode (k, Entry.leaf v) = .ok (some (v.take 8 ++ k, .leaf [])) := by
  have h8 : ¬v.length < 8 := Nat.not_lt.mpr hv
  simp [gNode, entryValue, hk, h8]

theorem gNode_writes (x : Bytes × Entry) (p : Bytes × Entry)
    (h : gNode x = .ok (some p)) : p.2 = .leaf [] := by
  rcases p with ⟨pk, pe⟩
  unfold gNode at h
  split_ifs at h with h1 h2
  · simp at h
  · simp at h
    exact h.2.symm

theorem gEdge_leaf (nodes : Bucket) (k v : Bytes) (p : ChanEdgePolicy)
    (hk : k.length = 41) (hd : deserializeChanEdgePolicy v [] = .ok p) :
    gEdge nodes (k, Entry.leaf v) =
      .ok (some (putUint64 p.lastUpdate ++ k.drop 33, .leaf [])) := by
  have hd' : deserializeChanEdgePolicy v nodes = .ok p := hd
  simp [gEdge, entryValue, hk, hd']

theorem gEdge_writes (nodes : Bucket) (x : Bytes × Entry) (p : Bytes × Entry)
    (h : gEdge nodes x = .ok (some p)) : p.2 = .leaf [] := by
  rcases p with ⟨pk, pe⟩
  unfold gEdge at h
  split_ifs at h with h1
  · simp at h
  · split at h
    · simp at h
    · simp at h
      exact h.2.symm

theorem gEdge_fail (nodes : Bucket) (k v : Bytes) (hk : k.length = 41)
    (hd : ∀ p, deserializeChanEdgePolicy v [] ≠ .ok p) :
    ∀ r, gEdge nodes (k, Entry.leaf v) ≠ .ok r := by
  intro r hgr
  cases hdd : deserializeChanEdgePolicy v nodes with
  | error e => simp [gEdge, entryValue, hk, hdd] at hgr
  | ok p => exact hd p hdd

theorem gPay_none (x : Bytes × Entry) (h : entryValue x.2 = none) :
    gPay x = .ok none := by
  unfold gPay
  rw [h]

theorem gPay_writes_fst (x : Bytes × Entry) (p : Bytes × Entry)
    (h : gPay x = .ok (some p)) : p.1 = x.1 := by
  rcases p with ⟨pk, pe⟩
  unfold gPay at h
  split at h
  · simp at h
  · split at h
    · simp at h
    · split at h
      · simp at h
      · simp at h
        exact h.1.symm

theorem gPay_leaf_char (k v : Bytes) (r : Option (Bytes × Entry))
    (h : gPay (k, Entry.leaf v) = .ok r) :
    ∃ payment b,
      deserializeOutgoingPayment v nodeAndEdgeUpdateIndexVersion = .ok payment ∧
      serializeOutgoingPayment payment invoiceWithChannelPointVersion = .ok b ∧
      r = some (k, .leaf b) := by
  simp only [gPay, entryValue] at h
  split at h
  · simp at h
  · rename_i payment hd
    split at h
    · simp at h
    · rename_i b hs
      simp at h
      exact ⟨payment, b, hd, hs, h.symm⟩

theorem gPay_fail (k v : Bytes)
    (hd : (deserializeOutgoingPayment v nodeAndEdgeUpdateIndexVersion).isOk = false) :
    ∀ r, gPay (k, Entry.leaf v) ≠ .ok r := by
  intro r hr
  simp only [gPay, entryValue] at hr
  cases hdd : deserializeOutgoingPayment v nodeAndEdgeUpdateIndexVersion with
  | ok payment =>
    rw [hdd] at hd
    simp [Except.isOk, Except.toBool] at hd
  | error e =>
    simp only [hdd] at hr
    simp at hr

theorem gInv_none (x : Bytes × Entry) (h : entryValue x.2 = none) :
    gInv x = .ok none := by
  unfold gInv
  rw [h]

theorem gInv_writes_fst (x : Bytes × Entry) (p : Bytes × Entry)
    (h : gInv x = .ok (some p)) : p.1 = x.1 := by
  rcases p with ⟨pk, pe⟩
  unfold gInv at h
  split at h
  · simp at h
  · split at h
    · simp at h
    · split at h
      · simp at h
      · simp at h
        exact h.1.symm

theorem gInv_leaf_char (k v : Bytes) (r : Option (Bytes × Entry))
    (h : gInv (k, Entry.leaf v) = .ok r) :
    ∃ invoice b,
      deserializeInvoice v nodeAndEdgeUpdateIndexVersion = .ok invoice ∧
      serializeInvoice invoice invoiceWithChannelPointVersion = .ok b ∧
      r = some (k, .leaf b) := by
  simp only [gInv, entryValue] at h
  split at h
  · simp at h
  · rename_i invoice hd
    split at h
    · simp at h
    · rename_i b hs
      simp at h
      exact ⟨invoice, b, hd, hs, h.symm⟩

theorem gInv_fail (k v : Bytes)
    (hd : (deserializeInvoice v nodeAndEdgeUpdateIndexVersion).isOk = false) :
    ∀ r, gInv (k, Entry.leaf v) ≠ .ok r := by
  intro r hr
  simp only [gInv, entryValue] at hr
  cases hdd : deserializeInvoice v nodeAndEdgeUpdateIndexVersion with
  | ok invoice =>
    rw [hdd] at hd
    simp [Except.isOk, Except.toBool] at hd
  | error e =>
    simp only [hdd] at hr
    simp at hr

theorem gFwd_writes_fst (x : Bytes × Entry) (p : Bytes × Entry)
    (h : gFwd x = .ok (some p)) : p.1 = x.1 := by
  rcases p with ⟨pk, pe⟩
  unfold gFwd at h
  split at h
  · simp at h
  · split at h
    · simp at h
    · simp at h
      exact h.1.symm

theorem gFwd_char (k : Bytes) (e : Entry) (r : Option (Bytes × Entry))
    (h : gFwd (k, e) = .ok r) :
    ∃ v event b, e = Entry.leaf v ∧
      decodeForwardingEvent v (forwardEventWithType - 1) = .ok event ∧
      encodeForwardingEvent { event with typ := SuccessForward }
        forwardEventWithType = .ok b ∧
      r = some (k, .leaf b) := by
  cases e with
  | sub c =>
    have hd : decodeForwardingEvent ((entryValue (Entry.sub c)).getD [])
        (forwardEventWithType - 1) = .error "unexpected EOF" := rfl
    unfold gFwd at h
    rw [hd] at h
    simp at h
  | leaf v =>
    unfold gFwd at h
    split at h
    · simp at h
    · rename_i event hd
      split at h
      · simp at h
      · rename_i b hs
        simp at h
        exact ⟨v, event, b, rfl, hd, hs, h.symm⟩

/-! ### Destructuring the migration runs -/

theorem migrateNodePhase_ok (tx tx2 : Bucket)
    (h : migrateNodePhase tx = .ok tx2) :
    ∃ tx1 nodes0 nodes1 nui0 nuiF,
      createBucketIfNotExists tx nodeBucket = .ok (tx1, nodes0) ∧
      createBucketIfNotExists nodes0 nodeUpdateIndexBucket = .ok (nodes1, nui0) ∧
      foldE nodeStep nui0 nodes1 = .ok nuiF ∧
      tx2 = putEntry tx1 nodeBucket
        (.sub (putEntry nodes1 nodeUpdateIndexBucket (.sub nuiF))) := by
  unfold migrateNodePhase at h
  split at h
  · exact Except.noConfusion h
  · rename_i tx1 nodes0 hc1
    split at h
    · exact Except.noConfusion h
    · rename_i nodes1 nui0 hc2
      split at h
      · exact Except.noConfusion h
      · rename_i nuiF hc3
        injection h with h'
        exact ⟨tx1, nodes0, nodes1, nui0, nuiF, hc1, hc2, hc3, h'.symm⟩

theorem migrateEdgePhase_ok (tx2 tx' : Bucket)
    (h : migrateEdgePhase tx2 = .ok tx') :
    ∃ tx3 edges0 edges1 eui0 euiF,
      createBucketIfNotExists tx2 edgeBucket = .ok (tx3, edges0) ∧
      createBucketIfNotExists edges0 edgeUpdateIndexBucket = .ok (edges1, eui0) ∧
      foldE (edgeStep (getSub tx2 nodeBucket)) eui0 edges1 = .ok euiF ∧
      tx' = putEntry tx3 edgeBucket
        (.sub (putEntry edges1 edgeUpdateIndexBucket (.sub euiF))) := by
  unfold migrateEdgePhase at h
  split at h
  · exact Except.noConfusion h
  · rename_i tx3 edges0 hc1
    split at h
    · exact Except.noConfusion h
    · rename_i edges1 eui0 hc2
      split at h
      · exact Except.noConfusion h
      · rename_i euiF hc3
        injection h with h'
        exact ⟨tx3, edges0, edges1, eui0, euiF, hc1, hc2, hc3, h'.symm⟩

theorem migrateNodeAndEdgeUpdateIndex_ok (tx tx' : Bucket)
    (h : migrateNodeAndEdgeUpdateIndex tx = .ok tx') :
    ∃ tx2, migrateNodePhase tx = .ok tx2 ∧ migrateEdgePhase tx2 = .ok tx' := by
  unfold migrateNodeAndEdgeUpdateIndex at h
  split at h
  · exact Except.noConfusion h
  · rename_i tx2 hc
    exact ⟨tx2, hc, h⟩

theorem migratePaymentsPart_ok (tx tx1 : Bucket)
    (h : migratePaymentsPart tx = .ok tx1) :
    (getBucket tx paymentBucket = none ∧ tx1 = tx) ∨
    (∃ pb pbF, getBucket tx paymentBucket = some pb ∧
      foldE payStep pb pb = .ok pbF ∧
      tx1 = putEntry tx paymentBucket (.sub pbF)) := by
  unfold migratePaymentsPart at h
  split at h
  · rename_i hget
    injection h with h'
    exact Or.inl ⟨hget, h'.symm⟩
  · rename_i pb hget
    split at h
    · exact Except.noConfusion h
    · rename_i pbF hfold
      injection h with h'
      exact Or.inr ⟨pb, pbF, hget, hfold, h'.symm⟩

theorem migrateInvoicesPart_ok (tx tx1 : Bucket)
    (h : migrateInvoicesPart tx = .ok tx1) :
    (getBucket tx invoiceBucket = none ∧ tx1 = tx) ∨
    (∃ ib ibF, getBucket tx invoiceBucket = some ib ∧
      foldE invStep ib ib = .ok ibF ∧
      tx1 = putEntry tx invoiceBucket (.sub ibF)) := by
  unfold migrateInvoicesPart at h
  split at h
  · rename_i hget
    injection h with h'
    exact Or.inl ⟨hget, h'.symm⟩
  · rename_i ib hget
    split at h
    · exact Except.noConfusion h
    · rename_i ibF hfold
      injection h with h'
      exact Or.inr ⟨ib, ibF, hget, hfold, h'.symm⟩

theorem migrateAddInvoiceWithChannelPoint_ok (tx tx' : Bucket)
    (h : migrateAddInvoiceWithChannelPoint tx = .ok tx') :
    ∃ tx1, migratePaymentsPart tx = .ok tx1 ∧
      migrateInvoicesPart tx1 = .ok tx' := by
  unfold migrateAddInvoiceWithChannelPoint at h
  split at h
  · exact Except.noConfusion h
  · rename_i tx1 hc
    exact ⟨tx1, hc, h⟩

theorem migrateAddTypeToForwardEvent_ok (tx tx' : Bucket)
    (h : migrateAddTypeToForwardEvent tx = .ok tx') :
    (getBucket tx forwardingLogBucket = none ∧ tx' = tx) ∨
    (∃ logB logF, getBucket tx forwardingLogBucket = some logB ∧
      foldE fwdStep logB logB = .ok logF ∧
      tx' = putEntry tx forwardingLogBucket (.sub logF)) := by
  unfold migrateAddTypeToForwardEvent at h
  split at h
  · rename_i hget
    injection h with h'
    exact Or.inl ⟨hget, h'.symm⟩
  · rename_i logB hget
    split at h
    · exact Except.noConfusion h
    · rename_i logF hfold
      injection h with h'
      exact Or.inr ⟨logB, logF, hget, hfold, h'.symm⟩

theorem getBucket_some_getSub (b : Bucket) (name : Bytes) (c : Bucket)
    (h : getBucket b name = some c) : getSub b name = c := by
  unfold getBucket at h
  unfold getSub
  split at h
  · exact Option.some_injective _ h
  · exact Option.noConfusion h

theorem getBucket_none_getSub (b : Bucket) (name : Bytes)
    (h : getBucket b name = none) : getSub b name = [] := by
  unfold getBucket at h
  unfold getSub
  split at h
  · exact Option.noConfusion h
  · rfl

theorem getBucket_putEntry_ne (b : Bucket) (n k : Bytes) (e : Entry)
    (h : k ≠ n) : getBucket (putEntry b k e) n = getBucket b n := by
  unfold getBucket
  rw [lookupEntry_putEntry_ne b n k e h]

theorem getSub_putEntry_ne (b : Bucket) (n k : Bytes) (e : Entry)
    (h : k ≠ n) : getSub (putEntry b k e) n = getSub b n := by
  unfold getSub
  rw [lookupEntry_putEntry_ne b n k e h]

/-! ### In-place re-encoding characterization -/

theorem reencode_bucket_char
    (f : Bucket → Bytes × Entry → Except String Bucket)
    (g : Bytes × Entry → Except String (Option (Bytes × Entry)))
    (hshape : ∀ s x, f s x = stepOf g s x)
    (hgfst : ∀ x p, g x = .ok (some p) → p.1 = x.1)
    (b bF : Bucket) (hnd : (bucketKeys b).Nodup)
    (hfold : foldE f b b = .ok bF)
    (k : Bytes) (e : Entry) (hmem : (k, e) ∈ b) :
    (g (k, e) = .ok none → lookupEntry bF k = some e) ∧
    (∀ p, g (k, e) = .ok (some p) → lookupEntry bF k = some p.2) := by
  constructor
  · intro hg0
    have hw : ∀ y ∈ b, ∀ p, g y = .ok (some p) → p.1 ≠ k := by
      rintro ⟨yk, ye⟩ hy p hgp hpk
      have hyk : yk = k := by
        have := hgfst (yk, ye) p hgp
        rw [this] at hpk
        exact hpk
      subst hyk
      have hye : ye = e := entry_eq_of_mem_nodup b yk ye e hnd hy hmem
      subst hye
      rw [hg0] at hgp
      simp at hgp
    rw [foldE_lookup_unwritten f g hshape b bF b k hw hfold]
    exact lookupEntry_eq_of_mem_nodup b k e hnd hmem
  · intro p hg1
    obtain ⟨l1, l2, hsplit⟩ := List.append_of_mem hmem
    have hk2 : p.1 = k := hgfst (k, e) p hg1
    have hnotl2 : k ∉ bucketKeys l2 := by
      rw [hsplit] at hnd
      exact nodup_key_not_mem_right l1 l2 k e hnd
    have hgx : g (k, e) = .ok (some (k, p.2)) := by
      rw [hg1]
      congr 1
      congr 1
      exact Prod.ext hk2 rfl
    have hl2 : ∀ y ∈ l2, ∀ q, g y = .ok (some q) → q.1 ≠ k ∨ q.2 = p.2 := by
      intro y hy q hgq
      left
      have hq1 : q.1 = y.1 := hgfst y q hgq
      rw [hq1]
      intro hy1
      exact hnotl2 (hy1 ▸ mem_bucketKeys_of_mem l2 y.1 y.2 (by simpa using hy))
    have := foldE_lookup_written f g hshape b bF l1 l2 (k, e) k p.2 hgx hl2
      (hsplit ▸ hfold)
    exact this

/-! ### Claim theorems -/

/-- C5: an entry whose key length differs from the step's expected fixed
width (33 bytes for the node collection, 41 bytes for the edge collection)
makes the visitor return without error and without performing any write: the
index state is returned unchanged and the entry contributes no index
entry. -/
theorem foreign_key_entries_skipped :
    (∀ (idx : Bucket) (k : Bytes) (v : Option Bytes),
      k.length ≠ 33 → nodeMigVisitor idx k v = .ok idx) ∧
    (∀ (nodes idx : Bucket) (k : Bytes) (v : Option Bytes),
      k.length ≠ 41 → edgeMigVisitor nodes idx k v = .ok idx) := by
  constructor
  · intro idx k v h
    simp [nodeMigVisitor, h]
  · intro nodes idx k v h
    simp [edgeMigVisitor, h]

/-- Witness for C5 at a 1-byte key. -/
theorem foreign_key_entries_skipped_witness :
    nodeMigVisitor [] [0] none = .ok [] ∧
    edgeMigVisitor [] [] [0] none = .ok [] :=
  ⟨foreign_key_entries_skipped.1 [] [0] none (by decide),
   foreign_key_entries_skipped.2 [] [] [0] none (by decide)⟩

theorem lexLe_beBytes_mono (w t1 t2 : Nat) (h : t1 ≤ t2) :
    lexLe (beBytes w t1) (beBytes w t2) = true := by
  induction w generalizing t1 t2 with
  | zero => rfl
  | succ w ih =>
    rcases Nat.lt_or_ge (t1 / 256 ^ w) (t2 / 256 ^ w) with hlt | hge
    · simp [beBytes, lexLe, hlt]
    · have heq : t1 / 256 ^ w = t2 / 256 ^ w :=
        Nat.le_antisymm (Nat.div_le_div_right h) hge
      have hr : t1 % 256 ^ w ≤ t2 % 256 ^ w := by
        have e1 := Nat.div_add_mod t1 (256 ^ w)
        have e2 := Nat.div_add_mod t2 (256 ^ w)
        rw [heq] at e1
        omega
      simp [beBytes, lexLe, heq, ih (t1 % 256 ^ w) (t2 % 256 ^ w) hr]

/-- C9: for update-timestamps within unsigned 64-bit range, the 8-byte
big-endian encoding used for the index keys is monotone with respect to
lexicographic byte order, so index entries read in key order are
non-decreasing in timestamp. -/
theorem timestamp_encoding_monotone (t1 t2 : Nat) (h1 : t1 < 2 ^ 64)
    (h2 : t2 < 2 ^ 64) (hle : t1 ≤ t2) :
    lexLe (putUint64 t1) (putUint64 t2) = true := by
  unfold putUint64
  rw [Nat.mod_eq_of_lt h1, Nat.mod_eq_of_lt h2]
  exact lexLe_beBytes_mono 8 t1 t2 hle

/-- Witness for C9 at timestamps 1000 and 70000. -/
theorem timestamp_encoding_monotone_witness :
    1000 ≤ 70000 ∧ lexLe (putUint64 1000) (putUint64 70000) = true :=
  ⟨by decide,
   timestamp_encoding_monotone 1000 70000 (by norm_num) (by norm_num)
     (by decide)⟩

/-- C10: `migrateNodeAndEdgeUpdateIndex` creates the node, node-update-index,
edge and edge-update-index Collections whenever absent: on the empty store it
succeeds and leaves exactly the four Collections with both indexes empty, and
after any successful run all four Collections exist. -/
theorem index_migration_creates_buckets :
    migrateNodeAndEdgeUpdateIndex [] =
      .ok [(nodeBucket, .sub [(nodeUpdateIndexBucket, .sub [])]),
           (edgeBucket, .sub [(edgeUpdateIndexBucket, .sub [])])] ∧
    (∀ tx tx', migrateNodeAndEdgeUpdateIndex tx = .ok tx' →
      (∃ nb, lookupEntry tx' nodeBucket = some (.sub nb) ∧
        ∃ ni, lookupEntry nb nodeUpdateIndexBucket = some (.sub ni)) ∧
      (∃ eb, lookupEntry tx' edgeBucket = some (.sub eb) ∧
        ∃ ei, lookupEntry eb edgeUpdateIndexBucket = some (.sub ei))) := by
  constructor
  · rfl
  · intro tx tx' hrun
    obtain ⟨tx2, hnp, hep⟩ := migrateNodeAndEdgeUpdateIndex_ok tx tx' hrun
    obtain ⟨tx1, nodes0, nodes1, nui0, nuiF, hc1, hc2, hfold, htx2⟩ :=
      migrateNodePhase_ok tx tx2 hnp
    obtain ⟨tx3, edges0, edges1, eui0, euiF, hd1, hd2, hefold, htx'⟩ :=
      migrateEdgePhase_ok tx2 tx' hep
    constructor
    · refine ⟨putEntry nodes1 nodeUpdateIndexBucket (.sub nuiF), ?_,
        nuiF, lookupEntry_putEntry_self _ _ _⟩
      rw [htx',
        lookupEntry_putEntry_ne tx3 nodeBucket edgeBucket _ (by decide),
        createBucketIfNotExists_lookup_ne tx2 edgeBucket tx3 edges0 nodeBucket
          hd1 (by decide),
        htx2]
      exact lookupEntry_putEntry_self _ _ _
    · refine ⟨putEntry edges1 edgeUpdateIndexBucket (.sub euiF), ?_,
        euiF, lookupEntry_putEntry_self _ _ _⟩
      rw [htx']
      exact lookupEntry_putEntry_self _ _ _

/-- Witness for C10: the second conjunct applied to the empty store. -/
theorem index_migration_creates_buckets_witness :
    (∃ nb, lookupEntry [(nodeBucket, .sub [(nodeUpdateIndexBucket, .sub [])]),
        (edgeBucket, .sub [(edgeUpdateIndexBucket, .sub [])])] nodeBucket =
        some (.sub nb) ∧
      ∃ ni, lookupEntry nb nodeUpdateIndexBucket = some (.sub ni)) ∧
    (∃ eb, lookupEntry [(nodeBucket, .sub [(nodeUpdateIndexBucket, .sub [])]),
        (edgeBucket, .sub [(edgeUpdateIndexBucket, .sub [])])] edgeBucket =
        some (.sub eb) ∧
      ∃ ei, lookupEntry eb edgeUpdateIndexBucket = some (.sub ei)) :=
  index_migration_creates_buckets.2 []
    [(nodeBucket, .sub [(nodeUpdateIndexBucket, .sub [])]),
     (edgeBucket, .sub [(edgeUpdateIndexBucket, .sub [])])] (by rfl)

/-- C1 counterexample: the claim that every migration-step visitor treats
nil-value entries as not applicable and returns without error fails on the
code: on a store whose forwarding log holds a nested sub-Collection (a
nil-value entry), `migrateAddTypeToForwardEvent` fails, because its visitor
attempts to decode the nil value; and the node-index visitor applied to a
33-byte key with a nil value reads the first 8 bytes of the value and errors
(a Go slice-bounds panic). -/
theorem nil_value_visitor_counterexample :
    (migrateAddTypeToForwardEvent
      [(forwardingLogBucket, .sub [([0], .sub [])])]).isOk = false ∧
    (nodeMigVisitor [] (List.replicate 33 0) none).isOk = false ∧
    (forwardEventMigVisitor [] [0] none).isOk = false := ⟨rfl, rfl, rfl⟩

/-- C1 amended: only the payment and invoice visitors of
`migrateAddInvoiceWithChannelPoint` treat nil-value entries as not applicable
and return without error, never decoding them; the node-index visitor filters
on key length alone and fails (Go panic) on a 33-byte-keyed nil value, and
the forwarding-log visitor attempts to decode every value including nil,
returning a decode error on it. -/
theorem nil_value_visitor_amended :
    (∀ (s : Bucket) (k : Bytes), paymentMigVisitor s k none = .ok s) ∧
    (∀ (s : Bucket) (k : Bytes), invoiceMigVisitor s k none = .ok s) ∧
    (∀ (s : Bucket) (k : Bytes), k.length = 33 →
      (nodeMigVisitor s k none).isOk = false) ∧
    (∀ (s : Bucket) (k : Bytes),
      (forwardEventMigVisitor s k none).isOk = false) := by
  refine ⟨fun s k => rfl, fun s k => rfl, ?_, fun s k => rfl⟩
  intro s k hk
  simp [nodeMigVisitor, hk, Except.isOk, Except.toBool]

/-- Witness for the amended C1 at concrete inputs. -/
theorem nil_value_visitor_amended_witness :
    paymentMigVisitor [] [1] none = .ok [] ∧
    invoiceMigVisitor [] [1] none = .ok [] ∧
    (nodeMigVisitor [] (List.replicate 33 0) none).isOk = false ∧
    (forwardEventMigVisitor [] [1] none).isOk = false :=
  ⟨nil_value_visitor_amended.1 [] [1],
   nil_value_visitor_amended.2.1 [] [1],
   nil_value_visitor_amended.2.2.1 [] (List.replicate 33 0) (by decide),
   nil_value_visitor_amended.2.2.2 [] [1]⟩

theorem mem_bucketKeys_of_lookup (b : Bucket) (k : Bytes) (e : Entry)
    (h : lookupEntry b k = some e) : k ∈ bucketKeys b := by
  induction b with
  | nil => exact Option.noConfusion h
  | cons p rest ih =>
    rcases p with ⟨k', e'⟩
    rw [bucketKeys_cons]
    by_cases h0 : k' = k
    · subst h0
      exact List.mem_cons_self k' (bucketKeys rest)
    · simp only [lookupEntry, if_neg h0] at h
      exact List.mem_cons_of_mem _ (ih h)

/-- C2: after a successful `migrateNodeAndEdgeUpdateIndex`, every entry of
the node Collection with a 33-byte key and a value of at least 8 bytes has
exactly one entry in the node-update-index whose 41-byte key is the first 8
bytes of the value followed by the 33-byte key, with empty value (assuming a
pre-existing index, if any, has unique keys, the Collection invariant). -/
theorem node_update_index_complete (tx tx' : Bucket) (k v : Bytes)
    (hrun : migrateNodeAndEdgeUpdateIndex tx = .ok tx')
    (hmem : (k, Entry.leaf v) ∈ getSub tx nodeBucket)
    (hk : k.length = 33) (hv : 8 ≤ v.length)
    (hnd : (bucketKeys (getSub (getSub tx nodeBucket)
      nodeUpdateIndexBucket)).Nodup) :
    lookupEntry (getSub (getSub tx' nodeBucket) nodeUpdateIndexBucket)
      (v.take 8 ++ k) = some (.leaf []) ∧
    countKey (getSub (getSub tx' nodeBucket) nodeUpdateIndexBucket)
      (v.take 8 ++ k) = 1 := by
  obtain ⟨tx2, hnp, hep⟩ := migrateNodeAndEdgeUpdateIndex_ok tx tx' hrun
  obtain ⟨tx1, nodes0, nodes1, nui0, nuiF, hc1, hc2, hfold, htx2⟩ :=
    migrateNodePhase_ok tx tx2 hnp
  obtain ⟨tx3, edges0, edges1, eui0, euiF, hd1, hd2, hefold, htx'⟩ :=
    migrateEdgePhase_ok tx2 tx' hep
  have hnodes0 : nodes0 = getSub tx nodeBucket :=
    (createBucketIfNotExists_ok tx nodeBucket tx1 nodes0 hc1).1
  have hnui0 : nui0 = getSub nodes0 nodeUpdateIndexBucket :=
    (createBucketIfNotExists_ok nodes0 nodeUpdateIndexBucket nodes1 nui0 hc2).1
  have hkne : k ≠ nodeUpdateIndexBucket :=
    ne_of_length_ne k nodeUpdateIndexBucket (by rw [hk]; decide)
  have hmem1 : (k, Entry.leaf v) ∈ nodes1 :=
    createBucketIfNotExists_mem nodes0 nodeUpdateIndexBucket nodes1 nui0 k
      (Entry.leaf v) hc2 (hnodes0 ▸ hmem) hkne
  obtain ⟨l1, l2, hsplit⟩ := List.append_of_mem hmem1
  have hgx : gNode (k, Entry.leaf v) = .ok (some (v.take 8 ++ k, .leaf [])) :=
    gNode_leaf k v hk hv
  have hlook : lookupEntry nuiF (v.take 8 ++ k) = some (.leaf []) := by
    refine foldE_lookup_written nodeStep gNode nodeStep_shape nui0 nuiF l1 l2
      (k, Entry.leaf v) (v.take 8 ++ k) (.leaf []) hgx ?_ (hsplit ▸ hfold)
    intro y hy q hgq
    exact Or.inr (gNode_writes y q hgq)
  have hndF : (bucketKeys nuiF).Nodup := by
    refine foldE_nodup nodeStep gNode nodeStep_shape nui0 nuiF nodes1 ?_ hfold
    rw [hnui0, hnodes0]
    exact hnd
  have hfinal : getSub (getSub tx' nodeBucket) nodeUpdateIndexBucket = nuiF := by
    have h1 : lookupEntry tx' nodeBucket =
        some (.sub (putEntry nodes1 nodeUpdateIndexBucket (.sub nuiF))) := by
      rw [htx',
        lookupEntry_putEntry_ne tx3 nodeBucket edgeBucket _ (by decide),
        createBucketIfNotExists_lookup_ne tx2 edgeBucket tx3 edges0 nodeBucket
          hd1 (by decide),
        htx2]
      exact lookupEntry_putEntry_self _ _ _
    have h2 : getSub tx' nodeBucket =
        putEntry nodes1 nodeUpdateIndexBucket (.sub nuiF) := by
      unfold getSub
      rw [h1]
    rw [h2]
    unfold getSub
    rw [lookupEntry_putEntry_self]
  rw [hfinal]
  exact ⟨hlook, countKey_eq_one_of_nodup nuiF (v.take 8 ++ k) hndF
    (mem_bucketKeys_of_lookup nuiF _ _ hlook)⟩

/-- C3: after a successful `migrateNodeAndEdgeUpdateIndex`, every entry of
the edge Collection with a 41-byte key whose value decodes as an edge policy
has an entry in the edge-update-index whose 16-byte key is the policy's
update time as 8 big-endian bytes followed by the last 8 bytes of the
original key, with empty value. -/
theorem edge_update_index_complete (tx tx' : Bucket) (k v : Bytes)
    (p : ChanEdgePolicy)
    (hrun : migrateNodeAndEdgeUpdateIndex tx = .ok tx')
    (hmem : (k, Entry.leaf v) ∈ getSub tx edgeBucket)
    (hk : k.length = 41)
    (hdec : deserializeChanEdgePolicy v [] = .ok p) :
    lookupEntry (getSub (getSub tx' edgeBucket) edgeUpdateIndexBucket)
      (putUint64 p.lastUpdate ++ k.drop 33) = some (.leaf []) := by
  obtain ⟨tx2, hnp, hep⟩ := migrateNodeAndEdgeUpdateIndex_ok tx tx' hrun
  obtain ⟨tx1, nodes0, nodes1, nui0, nuiF, hc1, hc2, hfold, htx2⟩ :=
    migrateNodePhase_ok tx tx2 hnp
  obtain ⟨tx3, edges0, edges1, eui0, euiF, hd1, hd2, hefold, htx'⟩ :=
    migrateEdgePhase_ok tx2 tx' hep
  have hlook2 : lookupEntry tx2 edgeBucket = lookupEntry tx edgeBucket := by
    rw [htx2,
      lookupEntry_putEntry_ne tx1 edgeBucket nodeBucket _ (by decide),
      createBucketIfNotExists_lookup_ne tx nodeBucket tx1 nodes0 edgeBucket
        hc1 (by decide)]
  have hedges0 : edges0 = getSub tx edgeBucket := by
    have h0 := (createBucketIfNotExists_ok tx2 edgeBucket tx3 edges0 hd1).1
    rw [h0]
    unfold getSub
    rw [hlook2]
  have hkne : k ≠ edgeUpdateIndexBucket :=
    ne_of_length_ne k edgeUpdateIndexBucket (by rw [hk]; decide)
  have hmem1 : (k, Entry.leaf v) ∈ edges1 :=
    createBucketIfNotExists_mem edges0 edgeUpdateIndexBucket edges1 eui0 k
      (Entry.leaf v) hd2 (hedges0 ▸ hmem) hkne
  obtain ⟨l1, l2, hsplit⟩ := List.append_of_mem hmem1
  have hgx : gEdge (getSub tx2 nodeBucket) (k, Entry.leaf v) =
      .ok (some (putUint64 p.lastUpdate ++ k.drop 33, .leaf [])) :=
    gEdge_leaf (getSub tx2 nodeBucket) k v p hk hdec
  have hlook : lookupEntry euiF (putUint64 p.lastUpdate ++ k.drop 33) =
      some (.leaf []) := by
    refine foldE_lookup_written (edgeStep (getSub tx2 nodeBucket))
      (gEdge (getSub tx2 nodeBucket)) (edgeStep_shape (getSub tx2 nodeBucket))
      eui0 euiF l1 l2 (k, Entry.leaf v) _ _ hgx ?_ (hsplit ▸ hefold)
    intro y hy q hgq
    exact Or.inr (gEdge_writes (getSub tx2 nodeBucket) y q hgq)
  have hfinal : getSub (getSub tx' edgeBucket) edgeUpdateIndexBucket = euiF := by
    have h1 : lookupEntry tx' edgeBucket =
        some (.sub (putEntry edges1 edgeUpdateIndexBucket (.sub euiF))) := by
      rw [htx']
      exact lookupEntry_putEntry_self _ _ _
    have h2 : getSub tx' edgeBucket =
        putEntry edges1 edgeUpdateIndexBucket (.sub euiF) := by
      unfold getSub
      rw [h1]
    rw [h2]
    unfold getSub
    rw [lookupEntry_putEntry_self]
  rw [hfinal]
  exact hlook

/-- C4: if any entry of the edge Collection with a 41-byte key fails to
decode as an edge policy, `migrateNodeAndEdgeUpdateIndex` fails as a whole
rather than skipping the entry. -/
theorem edge_decode_failure_aborts (tx : Bucket) (k v : Bytes)
    (hmem : (k, Entry.leaf v) ∈ getSub tx edgeBucket)
    (hk : k.length = 41)
    (hdec : ∀ p, deserializeChanEdgePolicy v [] ≠ .ok p) :
    (migrateNodeAndEdgeUpdateIndex tx).isOk = false := by
  cases hrun : migrateNodeAndEdgeUpdateIndex tx with
  | error e => rfl
  | ok tx' =>
    exfalso
    obtain ⟨tx2, hnp, hep⟩ := migrateNodeAndEdgeUpdateIndex_ok tx tx' hrun
    obtain ⟨tx1, nodes0, nodes1, nui0, nuiF, hc1, hc2, hfold, htx2⟩ :=
      migrateNodePhase_ok tx tx2 hnp
    obtain ⟨tx3, edges0, edges1, eui0, euiF, hd1, hd2, hefold, htx'⟩ :=
      migrateEdgePhase_ok tx2 tx' hep
    have hlook2 : lookupEntry tx2 edgeBucket = lookupEntry tx edgeBucket := by
      rw [htx2,
        lookupEntry_putEntry_ne tx1 edgeBucket nodeBucket _ (by decide),
        createBucketIfNotExists_lookup_ne tx nodeBucket tx1 nodes0 edgeBucket
          hc1 (by decide)]
    have hedges0 : edges0 = getSub tx edgeBucket := by
      have h0 := (createBucketIfNotExists_ok tx2 edgeBucket tx3 edges0 hd1).1
      rw [h0]
      unfold getSub
      rw [hlook2]
    have hkne : k ≠ edgeUpdateIndexBucket :=
      ne_of_length_ne k edgeUpdateIndexBucket (by rw [hk]; decide)
    have hmem1 : (k, Entry.leaf v) ∈ edges1 :=
      createBucketIfNotExists_mem edges0 edgeUpdateIndexBucket edges1 eui0 k
        (Entry.leaf v) hd2 (hedges0 ▸ hmem) hkne
    obtain ⟨r, hr⟩ := foldE_ok_g_ok (edgeStep (getSub tx2 nodeBucket))
      (gEdge (getSub tx2 nodeBucket)) (edgeStep_shape (getSub tx2 nodeBucket))
      eui0 euiF edges1 (k, Entry.leaf v) hefold hmem1
    exact gEdge_fail (getSub tx2 nodeBucket) k v hk hdec r hr

/-- C6: `migrateAddInvoiceWithChannelPoint`, for the payment and invoice
Collections independently, decodes every leaf entry with the prior-version
codec, re-encodes it with the new-version codec and overwrites the same key,
while nil-value entries (nested sub-Collections) are left untouched without
error (assuming unique keys, the Collection invariant). -/
theorem payments_invoices_reencoded (tx tx' : Bucket)
    (hrun : migrateAddInvoiceWithChannelPoint tx = .ok tx')
    (hndp : (bucketKeys (getSub tx paymentBucket)).Nodup)
    (hndi : (bucketKeys (getSub tx invoiceBucket)).Nodup) :
    (∀ k e, (k, e) ∈ getSub tx paymentBucket →
      (entryValue e = none →
        lookupEntry (getSub tx' paymentBucket) k = some e) ∧
      (∀ v, e = Entry.leaf v → ∃ payment b,
        deserializeOutgoingPayment v nodeAndEdgeUpdateIndexVersion =
          .ok payment ∧
        serializeOutgoingPayment payment invoiceWithChannelPointVersion =
          .ok b ∧
        lookupEntry (getSub tx' paymentBucket) k = some (.leaf b))) ∧
    (∀ k e, (k, e) ∈ getSub tx invoiceBucket →
      (entryValue e = none →
        lookupEntry (getSub tx' invoiceBucket) k = some e) ∧
      (∀ v, e = Entry.leaf v → ∃ invoice b,
        deserializeInvoice v nodeAndEdgeUpdateIndexVersion = .ok invoice ∧
        serializeInvoice invoice invoiceWithChannelPointVersion = .ok b ∧
        lookupEntry (getSub tx' invoiceBucket) k = some (.leaf b))) := by
  obtain ⟨tx1, hpp, hip⟩ := migrateAddInvoiceWithChannelPoint_ok tx tx' hrun
  have hpay' : getSub tx' paymentBucket = getSub tx1 paymentBucket := by
    rcases migrateInvoicesPart_ok tx1 tx' hip with ⟨_, htx'⟩ |
      ⟨ib, ibF, _, _, htx'⟩
    · rw [htx']
    · rw [htx', getSub_putEntry_ne tx1 paymentBucket invoiceBucket _
        (by decide)]
  have hinv1 : getSub tx1 invoiceBucket = getSub tx invoiceBucket := by
    rcases migratePaymentsPart_ok tx tx1 hpp with ⟨_, htx1⟩ |
      ⟨pb, pbF, _, _, htx1⟩
    · rw [htx1]
    · rw [htx1, getSub_putEntry_ne tx invoiceBucket paymentBucket _
        (by decide)]
  constructor
  · intro k e hmem
    rcases migratePaymentsPart_ok tx tx1 hpp with ⟨hget, htx1⟩ |
      ⟨pb, pbF, hget, hfold, htx1⟩
    · rw [getBucket_none_getSub tx paymentBucket hget] at hmem
      cases hmem
    · have hpb : pb = getSub tx paymentBucket :=
        (getBucket_some_getSub tx paymentBucket pb hget).symm
      have hndpb : (bucketKeys pb).Nodup := hpb ▸ hndp
      have hmem' : (k, e) ∈ pb := hpb ▸ hmem
      have hchar := reencode_bucket_char payStep gPay payStep_shape
        gPay_writes_fst pb pbF hndpb hfold k e hmem'
      have hfinal : getSub tx' paymentBucket = pbF := by
        rw [hpay', htx1]
        unfold getSub
        rw [lookupEntry_putEntry_self]
      constructor
      · intro hnone
        rw [hfinal]
        exact hchar.1 (gPay_none (k, e) hnone)
      · intro v hleaf
        subst hleaf
        obtain ⟨r, hr⟩ := foldE_ok_g_ok payStep gPay payStep_shape pb pbF pb
          (k, Entry.leaf v) hfold hmem'
        obtain ⟨payment, b, hd, hs, hreq⟩ := gPay_leaf_char k v r hr
        subst hreq
        refine ⟨payment, b, hd, hs, ?_⟩
        rw [hfinal]
        have := hchar.2 (k, .leaf b) hr
        simpa using this
  · intro k e hmem
    rcases migrateInvoicesPart_ok tx1 tx' hip with ⟨hget, htx'⟩ |
      ⟨ib, ibF, hget, hfold, htx'⟩
    · rw [← hinv1, getBucket_none_getSub tx1 invoiceBucket hget] at hmem
      cases hmem
    · have hib : ib = getSub tx invoiceBucket := by
        rw [← hinv1]
        exact (getBucket_some_getSub tx1 invoiceBucket ib hget).symm
      have hndib : (bucketKeys ib).Nodup := hib ▸ hndi
      have hmem' : (k, e) ∈ ib := hib ▸ hmem
      have hchar := reencode_bucket_char invStep gInv invStep_shape
        gInv_writes_fst ib ibF hndib hfold k e hmem'
      have hfinal : getSub tx' invoiceBucket = ibF := by
        rw [htx']
        unfold getSub
        rw [lookupEntry_putEntry_self]
      constructor
      · intro hnone
        rw [hfinal]
        exact hchar.1 (gInv_none (k, e) hnone)
      · intro v hleaf
        subst hleaf
        obtain ⟨r, hr⟩ := foldE_ok_g_ok invStep gInv invStep_shape ib ibF ib
          (k, Entry.leaf v) hfold hmem'
        obtain ⟨invoice, b, hd, hs, hreq⟩ := gInv_leaf_char k v r hr
        subst hreq
        refine ⟨invoice, b, hd, hs, ?_⟩
        rw [hfinal]
        have := hchar.2 (k, .leaf b) hr
        simpa using this

/-- C7: when decoding one payment (or invoice) record fails, the migration
returns that decode error: the fold over the Collection yields the same error
no matter what entries follow the failing one — no later entry is processed —
and `migrateAddInvoiceWithChannelPoint` fails as a whole. -/
theorem reencode_first_error_aborts (tx : Bucket) (l1 l2 : Bucket)
    (k v : Bytes) :
    ((deserializeOutgoingPayment v nodeAndEdgeUpdateIndexVersion).isOk =
        false →
      getBucket tx paymentBucket = some (l1 ++ (k, Entry.leaf v) :: l2) →
      ∃ e, migrateAddInvoiceWithChannelPoint tx = .error e ∧
        ∀ s l2a, foldE payStep s (l1 ++ (k, Entry.leaf v) :: l2a) =
          .error e) ∧
    ((deserializeInvoice v nodeAndEdgeUpdateIndexVersion).isOk = false →
      getBucket tx invoiceBucket = some (l1 ++ (k, Entry.leaf v) :: l2) →
      ∃ e, (migrateAddInvoiceWithChannelPoint tx).isOk = false ∧
        ∀ s l2a, foldE invStep s (l1 ++ (k, Entry.leaf v) :: l2a) =
          .error e) := by
  constructor
  · intro hdec hget
    obtain ⟨e, he⟩ := foldE_error_tail_indep payStep gPay payStep_shape
      (k, Entry.leaf v) (gPay_fail k v hdec) l1
    refine ⟨e, ?_, he⟩
    have hpp : migratePaymentsPart tx = .error e := by
      simp only [migratePaymentsPart, hget]
      rw [he]
    unfold migrateAddInvoiceWithChannelPoint
    rw [hpp]
  · intro hdec hget
    obtain ⟨e, he⟩ := foldE_error_tail_indep invStep gInv invStep_shape
      (k, Entry.leaf v) (gInv_fail k v hdec) l1
    refine ⟨e, ?_, he⟩
    cases hpp : migratePaymentsPart tx with
    | error e0 =>
      simp [migrateAddInvoiceWithChannelPoint, hpp, Except.isOk, Except.toBool]
    | ok tx1 =>
      have hget1 : getBucket tx1 invoiceBucket =
          some (l1 ++ (k, Entry.leaf v) :: l2) := by
        rcases migratePaymentsPart_ok tx tx1 hpp with ⟨_, htx1⟩ |
          ⟨pb, pbF, _, _, htx1⟩
        · rw [htx1]
          exact hget
        · rw [htx1, getBucket_putEntry_ne tx invoiceBucket paymentBucket _
            (by decide)]
          exact hget
      have hipE : migrateInvoicesPart tx1 = .error e := by
        simp only [migrateInvoicesPart, hget1]
        rw [he]
      simp [migrateAddInvoiceWithChannelPoint, hpp, hipE, Except.isOk,
        Except.toBool]

/-- C8: `migrateAddTypeToForwardEvent` skips nothing: on success every entry
of the forwarding log was a leaf that decoded at the prior version, had its
classification set to `SuccessForward`, and was re-encoded at the new version
and written back under the same key; and when the log Collection does not
exist the function succeeds having performed no write at all. -/
theorem forward_events_all_reencoded (tx : Bucket) :
    (getBucket tx forwardingLogBucket = none →
      migrateAddTypeToForwardEvent tx = .ok tx) ∧
    (∀ tx', migrateAddTypeToForwardEvent tx = .ok tx' →
      (bucketKeys (getSub tx forwardingLogBucket)).Nodup →
      ∀ k e, (k, e) ∈ getSub tx forwardingLogBucket →
        ∃ v event b, e = Entry.leaf v ∧
          decodeForwardingEvent v (forwardEventWithType - 1) = .ok event ∧
          encodeForwardingEvent { event with typ := SuccessForward }
            forwardEventWithType = .ok b ∧
          lookupEntry (getSub tx' forwardingLogBucket) k =
            some (.leaf b)) := by
  constructor
  · intro hget
    unfold migrateAddTypeToForwardEvent
    rw [hget]
  · intro tx' hrun hnd k e hmem
    rcases migrateAddTypeToForwardEvent_ok tx tx' hrun with ⟨hget, htx'⟩ |
      ⟨logB, logF, hget, hfold, htx'⟩
    · rw [getBucket_none_getSub tx forwardingLogBucket hget] at hmem
      cases hmem
    · have hlb : logB = getSub tx forwardingLogBucket :=
        (getBucket_some_getSub tx forwardingLogBucket logB hget).symm
      have hndl : (bucketKeys logB).Nodup := hlb ▸ hnd
      have hmem' : (k, e) ∈ logB := hlb ▸ hmem
      obtain ⟨r, hr⟩ := foldE_ok_g_ok fwdStep gFwd fwdStep_shape logB logF
        logB (k, e) hfold hmem'
      obtain ⟨v, event, b, he, hd, hs, hreq⟩ := gFwd_char k e r hr
      subst hreq
      have hchar := reencode_bucket_char fwdStep gFwd fwdStep_shape
        gFwd_writes_fst logB logF hndl hfold k e hmem'
      have hfinal : getSub tx' forwardingLogBucket = logF := by
        rw [htx']
        unfold getSub
        rw [lookupEntry_putEntry_self]
      refine ⟨v, event, b, he, hd, hs, ?_⟩
      rw [hfinal]
      have := hchar.2 (k, .leaf b) hr
      simpa using this

/-! ### Concrete stores used by the witnesses -/

/-- A 33-byte node identity key. -/
def nodeKeyW : Bytes := List.replicate 33 0

/-- A node record value whose first 8 bytes encode timestamp 1000. -/
def nodeValW : Bytes := [0, 0, 0, 0, 0, 0, 3, 232]

/-- A store with one node record. -/
def txNodeW : Bucket := [(nodeBucket, .sub [(nodeKeyW, .leaf nodeValW)])]

/-- The store after migrating `txNodeW`. -/
def txNodeW' : Bucket :=
  [(nodeBucket, .sub [(nodeKeyW, .leaf nodeValW),
         (nodeUpdateIndexBucket, .sub [(nodeValW ++ nodeKeyW, .leaf [])])]),
   (edgeBucket, .sub [(edgeUpdateIndexBucket, .sub [])])]

/-- A 41-byte compound edge key. -/
def edgeKeyW : Bytes := List.replicate 41 1

/-- An edge policy value: channel id 5, update time 7. -/
def edgeValW : Bytes := [0, 0, 0, 0, 0, 0, 0, 5, 0, 0, 0, 0, 0, 0, 0, 7]

/-- A store with one edge policy record. -/
def txEdgeW : Bucket := [(edgeBucket, .sub [(edgeKeyW, .leaf edgeValW)])]

/-- The store after migrating `txEdgeW`. -/
def txEdgeW' : Bucket :=
  [(edgeBucket, .sub [(edgeKeyW, .leaf edgeValW),
      (edgeUpdateIndexBucket,
       .sub [([0, 0, 0, 0, 0, 0, 0, 7] ++ List.replicate 8 1, .leaf [])])]),
   (nodeBucket, .sub [(nodeUpdateIndexBucket, .sub [])])]

/-- A store whose single edge policy value is too short to decode. -/
def txEdgeBadW : Bucket := [(edgeBucket, .sub [(edgeKeyW, .leaf [1, 2, 3])])]

/-- A store with one payment leaf, one payment sub-Collection and one
invoice. -/
def txPayW : Bucket :=
  [(paymentBucket, .sub [([1], .leaf [2, 9, 9]), ([2], .sub [])]),
   (invoiceBucket, .sub [([3], .leaf [1, 4])])]

/-- The store after migrating `txPayW`. -/
def txPayW' : Bucket :=
  [(paymentBucket, .sub [([1], .leaf [2, 9, 9, 0]), ([2], .sub [])]),
   (invoiceBucket, .sub [([3], .leaf [1, 4, 0])])]

/-- A store whose single payment record is malformed. -/
def txPayBadW : Bucket := [(paymentBucket, .sub [([1], .leaf [5])])]

/-- A store with one forwarding event. -/
def txFwdW : Bucket :=
  [(forwardingLogBucket, .sub [([1], .leaf (List.replicate 40 5))])]

/-- The store after migrating `txFwdW`. -/
def txFwdW' : Bucket :=
  [(forwardingLogBucket, .sub [([1], .leaf (List.replicate 40 5 ++ [0]))])]

/-- Witness for C2 on the one-node store. -/
theorem node_update_index_complete_witness :
    lookupEntry (getSub (getSub txNodeW' nodeBucket) nodeUpdateIndexBucket)
      (nodeValW.take 8 ++ nodeKeyW) = some (.leaf []) ∧
    countKey (getSub (getSub txNodeW' nodeBucket) nodeUpdateIndexBucket)
      (nodeValW.take 8 ++ nodeKeyW) = 1 :=
  node_update_index_complete txNodeW txNodeW' nodeKeyW nodeValW (by rfl)
    (by exact List.mem_singleton.mpr rfl) (by decide) (by decide) (by decide)

/-- Witness for C3 on the one-edge store. -/
theorem edge_update_index_complete_witness :
    lookupEntry (getSub (getSub txEdgeW' edgeBucket) edgeUpdateIndexBucket)
      (putUint64 (ChanEdgePolicy.mk 5 7).lastUpdate ++ edgeKeyW.drop 33) =
      some (.leaf []) :=
  edge_update_index_complete txEdgeW txEdgeW' edgeKeyW edgeValW
    (ChanEdgePolicy.mk 5 7) (by rfl)
    (by exact List.mem_singleton.mpr rfl) (by decide) (by rfl)

/-- Witness for C4 on the store with a malformed edge policy. -/
theorem edge_decode_failure_aborts_witness :
    (migrateNodeAndEdgeUpdateIndex txEdgeBadW).isOk = false :=
  edge_decode_failure_aborts txEdgeBadW edgeKeyW [1, 2, 3]
    (by exact List.mem_singleton.mpr rfl) (by decide)
    (by intro p h; simp [deserializeChanEdgePolicy] at h)

/-- Witness for C6 on the payment and invoice store. -/
theorem payments_invoices_reencoded_witness :
    ∃ payment b,
      deserializeOutgoingPayment [2, 9, 9] nodeAndEdgeUpdateIndexVersion =
        .ok payment ∧
      serializeOutgoingPayment payment invoiceWithChannelPointVersion =
        .ok b ∧
      lookupEntry (getSub txPayW' paymentBucket) [1] = some (.leaf b) :=
  ((payments_invoices_reencoded txPayW txPayW' (by rfl) (by decide)
      (by decide)).1 [1] (Entry.leaf [2, 9, 9])
    (by exact List.mem_cons_self _ _)).2 [2, 9, 9] rfl

/-- Witness for C7 on the store with a malformed payment record. -/
theorem reencode_first_error_aborts_witness :
    ∃ e, migrateAddInvoiceWithChannelPoint txPayBadW = .error e ∧
      ∀ s l2a, foldE payStep s ([] ++ ([1], Entry.leaf [5]) :: l2a) =
        .error e :=
  (reencode_first_error_aborts txPayBadW [] [] [1] [5]).1 (by decide) (by rfl)

/-- Witness for C8 on the one-event store. -/
theorem forward_events_all_reencoded_witness :
    ∃ v event b, Entry.leaf (List.replicate 40 5) = Entry.leaf v ∧
      decodeForwardingEvent v (forwardEventWithType - 1) = .ok event ∧
      encodeForwardingEvent { event with typ := SuccessForward }
        forwardEventWithType = .ok b ∧
      lookupEntry (getSub txFwdW' forwardingLogBucket) [1] =
        some (.leaf b) :=
  (forward_events_all_reencoded txFwdW).2 txFwdW' (by rfl) (by decide) [1]
    (Entry.leaf (List.replicate 40 5)) (by exact List.mem_singleton.mpr rfl)
